import Mathlib

/-!
Shallow embedding of `boneio/manager.py` (the Manager coordinator of the
BoneIO relay controller) and proofs about its behavior.

Conventions of the embedding:
* Side effects (MQTT publishes, device-method invocations, error logs,
  hardware acquisition, blocking sleeps, deferred scheduling) are recorded
  as an ordered trace of `Ev` events, in the order the Python code performs
  them.
* Python `dict`s are association lists with Python insertion semantics:
  assigning to an existing key updates it in place, otherwise the binding
  is appended; `get` returns the first binding.
* Python `str.replace(old, "")` (delete every non-overlapping occurrence,
  scanning left to right) is `removeAll` on `List Char`.
* A raised exception is `Except.error`.
-/

namespace BoneIO

/-- Modelled from the spec: constant `RELAY` of the missing `boneio/const.py`;
the spec fixes the relay topics as `{prefix}/relay/{id}` and
`{prefix}/relay/+/set`, so `RELAY = "relay"`. -/
def RELAY : String := "relay"

/-- Modelled from the spec: constant `STATE` of the missing `boneio/const.py`;
the spec fixes the availability/status topic as `{prefix}/state`. -/
def STATE : String := "state"

/-- Modelled from the spec: constant `ONLINE` of the missing `boneio/const.py`;
the spec says an "online" status message is published at startup. -/
def ONLINE : String := "online"

/-- Modelled from the spec: constant `ON` of the missing `boneio/const.py`;
the spec fixes the inbound/outbound payload literal `"ON"`. -/
def ON : String := "ON"

/-- Modelled from the spec: constant `OFF` of the missing `boneio/const.py`;
the spec fixes the inbound/outbound payload literal `"OFF"`. -/
def OFF : String := "OFF"

/-- Modelled from the spec: constant `MCP` of the missing `boneio/const.py`:
the configuration tag for an expander-backed output kind. -/
def MCP : String := "mcp"

/-- Modelled from the spec: constant `GPIO` of the missing `boneio/const.py`:
the configuration tag for a direct-GPIO output kind, also used as the
synthetic direct group name. -/
def GPIO : String := "gpio"

/-- Modelled from the spec: constant `OUTPUT` of the missing `boneio/const.py`:
the only supported action kind of an input action mapping. -/
def OUTPUT : String := "output"

/-- Modelled from the spec: constant `HOMEASSISTANT` of the missing
`boneio/const.py`: the default autodiscovery prefix. -/
def HOMEASSISTANT : String := "homeassistant"

/-- Modelled from the spec: `__version__` of the missing `boneio/version.py`;
only its presence in the `sw_version` descriptor field matters here, never
its value. -/
def appVersion : String := "unknown"

/-- Fuel-indexed worker for `removeAll`; the fuel only forces structural
recursion (each step consumes at least one character, so `s.length` fuel
always suffices). -/
def removeAllAux (pat : List Char) : Nat → List Char → List Char
  | 0, _ => []
  | _ + 1, [] => []
  | fuel + 1, c :: cs =>
    if pat.isPrefixOf (c :: cs) then
      removeAllAux pat fuel (cs.drop (pat.length - 1))
    else c :: removeAllAux pat fuel cs

/-- Deletes every non-overlapping occurrence of `pat` from `s`, scanning left
to right: the semantics of Python `s.replace(pat, "")` for non-empty `pat`
(the code only ever calls it with non-empty patterns). -/
def removeAll (pat s : List Char) : List Char :=
  removeAllAux pat s.length s

/-- The result of `removeAllAux` does not depend on the fuel once the fuel
covers the input length. -/
theorem removeAllAux_fuel (pat : List Char) :
    ∀ fuel fuel2 s, s.length ≤ fuel → s.length ≤ fuel2 →
      removeAllAux pat fuel s = removeAllAux pat fuel2 s := by
  intro fuel
  induction fuel with
  | zero =>
    intro fuel2 s hs _
    have : s = [] := List.eq_nil_of_length_eq_zero (Nat.le_zero.mp hs)
    subst this
    cases fuel2 <;> rfl
  | succ f ih =>
    intro fuel2 s hs hs2
    cases s with
    | nil => cases fuel2 <;> rfl
    | cons c cs =>
      cases fuel2 with
      | zero => exact absurd hs2 (by simp)
      | succ f2 =>
        have hcs : cs.length ≤ f := by
          have := hs
          simp only [List.length_cons] at this
          omega
        have hcs2 : cs.length ≤ f2 := by
          have := hs2
          simp only [List.length_cons] at this
          omega
        have hd : (cs.drop (pat.length - 1)).length ≤ cs.length := by
          simp only [List.length_drop]
          omega
        simp only [removeAllAux]
        by_cases hp : pat.isPrefixOf (c :: cs)
        · rw [if_pos hp, if_pos hp]
          exact ih f2 _ (le_trans hd hcs) (le_trans hd hcs2)
        · rw [if_neg hp, if_neg hp]
          exact congrArg (c :: ·) (ih f2 _ hcs hcs2)

/-- Empty-input unfolding of `removeAll`. -/
@[simp] theorem removeAll_nil (pat : List Char) : removeAll pat [] = [] := rfl

/-- One-step unfolding of `removeAll`: delete the pattern when it starts
here, otherwise keep the head and continue. -/
theorem removeAll_cons (pat : List Char) (c : Char) (cs : List Char) :
    removeAll pat (c :: cs) =
      if pat.isPrefixOf (c :: cs) then
        removeAll pat (cs.drop (pat.length - 1))
      else c :: removeAll pat cs := by
  show removeAllAux pat (cs.length + 1) (c :: cs) = _
  simp only [removeAllAux]
  by_cases hp : pat.isPrefixOf (c :: cs)
  · rw [if_pos hp, if_pos hp]
    refine removeAllAux_fuel pat cs.length _ _ ?_ (Nat.le_refl _)
    simp only [List.length_drop]
    omega
  · rw [if_neg hp, if_neg hp]
    rfl

/-- Python `dict.get`: the value of the first (hence unique) binding of `k`. -/
def dget {K V : Type} [DecidableEq K] (d : List (K × V)) (k : K) : Option V :=
  match d with
  | [] => none
  | e :: es => if e.1 = k then some e.2 else dget es k

/-- Python `dict` assignment `d[k] = v`: update the existing binding of `k` in
place, otherwise append the new binding. -/
def dput {K V : Type} [DecidableEq K] (d : List (K × V)) (k : K) (v : V) :
    List (K × V) :=
  match d with
  | [] => [(k, v)]
  | e :: es => if e.1 = k then (k, v) :: es else e :: dput es k v

/-- Key of `self._mcp` and `self._grouped_outputs`: a Python dict key that is
either a string (a named expander id, or the synthetic `"gpio"` group) or an
integer bus address (an unnamed expander, keyed by `mcp[ADDRESS]`). -/
inductive MKey : Type
  | str (s : String)
  | num (n : Nat)
deriving DecidableEq, Repr

/-- An OutputDevice as the Manager sees it: `MCPRelay` / `GpioRelay`
construction arguments that the Manager later reads back (`out.id`,
`out.ha_type`). Pin-level behavior lives in the out-of-scope relay module. -/
structure Relay : Type where
  id : String
  pin : String
  haType : String
  deriving DecidableEq, Repr

/-- Fields of the Home Assistant autodiscovery payload dict built by
`ha_availibilty_message`, one field per key of the Python dict literal. -/
structure HaMsg : Type where
  availability : List String
  command_topic : String
  device_identifiers : List String
  device_manufacturer : String
  device_model : String
  device_name : String
  device_sw_version : String
  name : String
  payload_off : String
  payload_on : String
  state_topic : String
  unique_id : String
  value_template : String
  deriving DecidableEq, Repr

/-- Payload of a `send_message` call: a plain string or the structured
autodiscovery dict. -/
inductive Payload : Type
  | str (s : String)
  | ha (m : HaMsg)
deriving DecidableEq, Repr

/-- One observable effect of the Manager, in program order. -/
inductive Ev : Type
  | pub (topic : String) (payload : Payload)
  | turnOn (id : String)
  | turnOff (id : String)
  | toggle (id : String)
  | acquire (address : Nat)
  | regMcp (key : MKey)
  | sleep (seconds : Nat)
  | regGroup (key : MKey)
  | mkOutput (id : String)
  | logError (msg : String)
  | schedule (id : String)
deriving DecidableEq, Repr

/-- Translation of `ha_availibilty_message(topic, relay_id)`. -/
def ha_availibilty_message (topic relay_id : String) : HaMsg :=
  { availability := [topic ++ "/" ++ STATE]
    command_topic := topic ++ "/relay/" ++ relay_id ++ "/set"
    device_identifiers := [topic]
    device_manufacturer := "BoneIO"
    device_model := "BoneIO Relay Board"
    device_name := "BoneIO " ++ topic
    device_sw_version := appVersion
    name := "Relay " ++ relay_id
    payload_off := OFF
    payload_on := ON
    state_topic := topic ++ "/" ++ RELAY ++ "/" ++ relay_id
    unique_id := topic ++ RELAY ++ relay_id
    value_template := "\x7b\x7b value_json.state \x7d\x7d" }

/-- Translation of `Manager.send_ha_autodiscovery(relay, prefix, ha_type)`:
the manager state it reads is only `self._topic_prefix`, passed explicitly. -/
def send_ha_autodiscovery (topicPrefix relay prefix_ haType : String) :
    List Ev :=
  [Ev.pub (prefix_ ++ "/" ++ haType ++ "/" ++ topicPrefix ++ "/" ++ haType
      ++ "/config")
    (Payload.ha (ha_availibilty_message topicPrefix relay))]

/-- Translation of the id extraction in `Manager.receive_message`:
`topic.replace(f"{self._topic_prefix}/{RELAY}/", "").replace("/set", "")`. -/
def extractRelay (topicPrefix topic : String) : String :=
  String.mk (removeAll "/set".data
    (removeAll (topicPrefix ++ "/" ++ RELAY ++ "/").data topic.data))

/-- Translation of `Manager.receive_message(topic, message)`: `output` is
`self.output`, whose values may be `none` because `configure_relay` can
return `None`; `if target_device:` is Python truthiness, so a `none` value
behaves like an absent key. -/
def receive_message (topicPrefix : String) (output : List (String × Option Relay))
    (topic message : String) : List Ev :=
  match (dget output (extractRelay topicPrefix topic)).join with
  | none => []
  | some r =>
    if message = ON then [Ev.turnOn r.id]
    else if message = OFF then [Ev.turnOff r.id]
    else []

/-- One entry of an input action mapping: the dict `{action, pin}`. -/
structure ActionConf : Type where
  action : String
  pin : String
  deriving DecidableEq, Repr

/-- Translation of `Manager.press_callback(x, inpin, actions)`: publish the
input topic, then run the mapped action when its kind is `OUTPUT` and its
target resolves in `self.output`. -/
def press_callback (topicPrefix : String)
    (output : List (String × Option Relay)) (x inpin : String)
    (actions : List (String × ActionConf)) : List Ev :=
  Ev.pub (topicPrefix ++ "/input/" ++ inpin) (Payload.str x) ::
    match dget actions x with
    | none => []
    | some a =>
      if a.action = OUTPUT then
        match (dget output a.pin).join with
        | none => []
        | some r => [Ev.toggle r.id]
      else []

/-- Modelled from the spec: the autodiscovery type tag of a direct
`GpioRelay`, which the missing `boneio/relay.py` defaults (the Manager passes
no `ha_type` to `GpioRelay`); `send_ha_autodiscovery` defaults it to
`"switch"`. Its value decides no claim. -/
def gpioRelayHaType : String := "switch"

/-- One entry of the `mcp23017` configuration list: `mcp[ID]` (where Python
`None` or `""` is falsy), `mcp[ADDRESS]`, and the optional `INIT_SLEEP`. -/
structure McpConfig : Type where
  id : Option String
  address : Nat
  initSleep : Option Nat
  deriving DecidableEq, Repr

/-- Translation of `mcp[ID] or mcp[ADDRESS]`: the expander registry key,
falling back to the integer bus address when the id is `None` or empty. -/
def effKey (c : McpConfig) : MKey :=
  match c.id with
  | some s => if s = "" then MKey.num c.address else MKey.str s
  | none => MKey.num c.address

/-- One entry of the `relay_pins` configuration list, the dict
`configure_relay` reads: `KIND`, `ID`, `PIN`, `gpio.get(MCP_ID, "")` and
`HA_TYPE` (the latter two read only on the `MCP` branch). -/
structure GpioConf : Type where
  kind : String
  id : String
  pin : String
  mcpId : Option String
  haType : String
  deriving DecidableEq, Repr

/-- One entry of the `input_pins` configuration list. -/
structure InputConf : Type where
  pin : String
  actions : List (String × ActionConf)
  deriving DecidableEq, Repr

/-- The keyword arguments of `Manager.__init__` (minus the injected
`send_message` capability, which the trace replaces). -/
structure Config : Type where
  topicPrefix : String
  relayPins : List GpioConf
  inputPins : List InputConf
  haDiscovery : Bool
  haDiscoveryPrefix : String
  mcp23017 : List McpConfig
  oled : Bool
  web : Bool
  deriving DecidableEq, Repr

/-- The grouped-outputs registry `self._grouped_outputs`. -/
abbrev GMap : Type := List (MKey × List (String × Relay))

/-- Translation of the `if mcp23017:` loop of `Manager.__init__`: per
expander, construct the `MCP23017` handle, register it in `self._mcp`,
sleep `mcp.get(INIT_SLEEP, 0)` seconds, then register an empty output
group; returns the registry, the groups, and the trace. -/
def initMcps (mcp : List (MKey × Nat)) (grouped : GMap) :
    List McpConfig → List (MKey × Nat) × GMap × List Ev
  | [] => (mcp, grouped, [])
  | c :: cs =>
    let k := effKey c
    let res := initMcps (dput mcp k c.address) (dput grouped k []) cs
    (res.1, res.2.1,
      Ev.acquire c.address :: Ev.regMcp k :: Ev.sleep (c.initSleep.getD 0) ::
        Ev.regGroup k :: res.2.2)

/-- Translation of the nested assignment
`self._grouped_outputs[k][id] = relay`: read the group of `k` (`getD []` is
unreachable: every caller reaches this with the key present) and write the
binding into it. -/
def insertIntoGroup (grouped : GMap) (k : MKey) (id : String) (r : Relay) :
    GMap :=
  dput grouped k (dput ((dget grouped k).getD []) id r)

/-- Translation of the inner function `configure_relay(gpio)`: dispatch on
`gpio[KIND]`; on the `MCP` branch a missing expander logs one error and
returns `None`; an unrecognized kind silently returns `None`. The nested
`dput` into a group of `grouped` mirrors
`self._grouped_outputs[key][relay_id] = relay` (the group key always exists
when reached: `initMcps` created one group per registered expander and the
`GPIO` branch creates its group first). -/
def configure_relay (mcp : List (MKey × Nat)) (grouped : GMap)
    (gpio : GpioConf) : GMap × Option Relay × List Ev :=
  if gpio.kind = MCP then
    let mcpKey := MKey.str (gpio.mcpId.getD "")
    match dget mcp mcpKey with
    | none => (grouped, none, [Ev.logError "No such MCP configured!"])
    | some _ =>
      let r : Relay := { id := gpio.id, pin := gpio.pin, haType := gpio.haType }
      (insertIntoGroup grouped mcpKey gpio.id r, some r, [Ev.mkOutput gpio.id])
  else if gpio.kind = GPIO then
    let grouped1 :=
      if (dget grouped (MKey.str GPIO)).isSome then grouped
      else dput grouped (MKey.str GPIO) []
    let r : Relay := { id := gpio.id, pin := gpio.pin, haType := gpioRelayHaType }
    (insertIntoGroup grouped1 (MKey.str GPIO) gpio.id r, some r,
      [Ev.mkOutput gpio.id])
  else (grouped, none, [])

/-- Translation of the dict comprehension
`self.output = {gpio[ID]: configure_relay(gpio) for gpio in relay_pins}`,
threading the grouped-outputs state left to right. -/
def buildOutputs (mcp : List (MKey × Nat)) (grouped : GMap)
    (outAcc : List (String × Option Relay)) :
    List GpioConf → GMap × List (String × Option Relay) × List Ev
  | [] => (grouped, outAcc, [])
  | g :: gs =>
    let cr := configure_relay mcp grouped g
    let rest := buildOutputs mcp cr.1 (dput outAcc g.id cr.2.1) gs
    (rest.1, rest.2.1, cr.2.2 ++ rest.2.2)

/-- The exception `Manager.__init__` can raise in this model: the
`AttributeError` of reading `out.id` or `out.send_state` on a `None` value
of `self.output`. -/
inductive InitError : Type
  | attrError
deriving DecidableEq, Repr

/-- Translation of the `for out in self.output.values():` loop: per output,
publish the autodiscovery descriptor when enabled, then schedule the
deferred `out.send_state`; a `None` value raises `AttributeError` at the
first attribute read of the iteration (`out.id`, or `out.send_state` when
discovery is disabled), before any effect of that iteration. On error the
trace so far is carried in the `error` payload. -/
def discoveryLoop (topicPrefix : String) (haDiscovery : Bool)
    (haPrefix : String) :
    List (String × Option Relay) → Except (List Ev) (List Ev)
  | [] => Except.ok []
  | (_, none) :: _ => Except.error []
  | (_, some r) :: rest =>
    let evs :=
      (if haDiscovery then
        send_ha_autodiscovery topicPrefix r.id haPrefix r.haType
      else []) ++ [Ev.schedule r.id]
    match discoveryLoop topicPrefix haDiscovery haPrefix rest with
    | Except.ok tr => Except.ok (evs ++ tr)
    | Except.error tr => Except.error (evs ++ tr)

/-- The constructed Manager state (the fields later methods read). -/
structure Manager : Type where
  topicPrefix : String
  relayTopic : String
  output : List (String × Option Relay)
  grouped : GMap
  mcp : List (MKey × Nat)
  buttons : List InputConf
  hostData : Bool
  oledOn : Bool
  deriving DecidableEq, Repr

/-- Translation of `Manager.__init__`: expander registration, output
construction, the discovery/scheduling loop, button construction,
telemetry/display setup, and the final `"online"` status publish. A raised
`AttributeError` aborts construction, carrying the trace emitted so far. -/
def initManager (cfg : Config) : Except (InitError × List Ev) (Manager × List Ev) :=
  let im := initMcps [] [] cfg.mcp23017
  let bo := buildOutputs im.1 im.2.1 [] cfg.relayPins
  let trace0 := im.2.2 ++ bo.2.2
  match discoveryLoop cfg.topicPrefix cfg.haDiscovery cfg.haDiscoveryPrefix
      bo.2.1 with
  | Except.error tr => Except.error (InitError.attrError, trace0 ++ tr)
  | Except.ok tr =>
    Except.ok
      ({ topicPrefix := cfg.topicPrefix
         relayTopic := cfg.topicPrefix ++ "/" ++ RELAY ++ "/+/set"
         output := bo.2.1
         grouped := bo.1
         mcp := im.1
         buttons := cfg.inputPins
         hostData := cfg.oled || cfg.web
         oledOn := cfg.oled },
       trace0 ++ tr ++
         [Ev.pub (cfg.topicPrefix ++ "/" ++ STATE) (Payload.str ONLINE)])

/-- Deleting a pattern from a string that starts with it deletes that leading
occurrence and continues on the remainder. -/
theorem removeAll_append_self (pat s : List Char) (h : pat ≠ []) :
    removeAll pat (pat ++ s) = removeAll pat s := by
  cases pat with
  | nil => exact absurd rfl h
  | cons p ps =>
    rw [List.cons_append, removeAll_cons]
    have hp : (p :: ps).isPrefixOf (p :: (ps ++ s)) := by
      refine List.isPrefixOf_iff_prefix.mpr ?_
      rw [← List.cons_append]
      exact List.prefix_append _ _
    rw [if_pos hp]
    simp only [List.length_cons, Nat.add_sub_cancel]
    rw [List.drop_left]

/-- Deleting a pattern that does not occur in a string leaves it unchanged. -/
theorem removeAll_of_not_infix (pat : List Char) :
    ∀ s : List Char, ¬ pat <:+: s → removeAll pat s = s := by
  intro s
  induction s with
  | nil => intro _; rfl
  | cons c cs ih =>
    intro h
    rw [removeAll_cons]
    have hp : ¬ pat.isPrefixOf (c :: cs) := fun hpp =>
      h (List.isPrefixOf_iff_prefix.mp hpp).isInfix
    rw [if_neg hp, ih fun hi => h (List.infix_cons hi)]

/-- Deleting a pattern from `s ++ pat` yields `s` when the only occurrence of
the pattern is the final one (no occurrence starts inside `s`). -/
theorem removeAll_append_pat (pat s : List Char) (hne : pat ≠ [])
    (h : ∀ k, k < s.length → ¬ pat.isPrefixOf ((s ++ pat).drop k)) :
    removeAll pat (s ++ pat) = s := by
  induction s with
  | nil =>
    have h0 := removeAll_append_self pat [] hne
    simpa using h0
  | cons c cs ih =>
    rw [List.cons_append, removeAll_cons]
    have h0 : ¬ pat.isPrefixOf (c :: (cs ++ pat)) := by
      have := h 0 (by simp)
      simpa using this
    rw [if_neg h0]
    have hrest : removeAll pat (cs ++ pat) = cs := by
      refine ih ?_
      intro k hk
      have := h (k + 1) (by simpa using Nat.succ_lt_succ hk)
      simpa [List.drop_succ_cons] using this
    rw [hrest]

/-- The id extraction of `receive_message` recovers the id from a well-formed
`/set` command topic, as long as no spurious occurrence of either deleted
pattern hides inside the id. -/
theorem extractRelay_roundtrip (topicPrefix id : String)
    (h1 : ¬ (topicPrefix ++ "/" ++ RELAY ++ "/").data <:+:
        (id.data ++ "/set".data))
    (h2 : ∀ k, k < id.data.length →
        ¬ "/set".data.isPrefixOf ((id.data ++ "/set".data).drop k)) :
    extractRelay topicPrefix (topicPrefix ++ "/" ++ RELAY ++ "/" ++ id ++ "/set")
      = id := by
  unfold extractRelay
  have hdata : (topicPrefix ++ "/" ++ RELAY ++ "/" ++ id ++ "/set").data =
      (topicPrefix ++ "/" ++ RELAY ++ "/").data ++ (id.data ++ "/set".data) := by
    simp [String.data_append, List.append_assoc]
  rw [hdata]
  have hne : (topicPrefix ++ "/" ++ RELAY ++ "/").data ≠ [] := by
    simp [String.data_append]
  rw [removeAll_append_self _ _ hne, removeAll_of_not_infix _ _ h1,
    removeAll_append_pat _ _ (by decide) h2]

/-- C1: for a configured output id `R1` of the output mapping, an inbound
message on `{topic-prefix}/relay/R1/set` with payload `"ON"` invokes
`turn_on` on exactly the device registered under `R1` and on no other
device (the whole effect trace is that single invocation); payload `"OFF"`
likewise invokes `turn_off`; any other payload invokes nothing. The two
pattern hypotheses rule out spurious occurrences of the deleted topic
patterns inside the id itself, which the replace-based extraction would
mangle (claim C10 covers that behavior). -/
theorem receive_message_routes_set_command (topicPrefix R1 : String)
    (output : List (String × Option Relay)) (r : Relay)
    (hr : dget output R1 = some (some r)) (hid : r.id = R1)
    (h1 : ¬ (topicPrefix ++ "/" ++ RELAY ++ "/").data <:+:
        (R1.data ++ "/set".data))
    (h2 : ∀ k, k < R1.data.length →
        ¬ "/set".data.isPrefixOf ((R1.data ++ "/set".data).drop k)) :
    receive_message topicPrefix output
        (topicPrefix ++ "/" ++ RELAY ++ "/" ++ R1 ++ "/set") ON
      = [Ev.turnOn R1] ∧
    receive_message topicPrefix output
        (topicPrefix ++ "/" ++ RELAY ++ "/" ++ R1 ++ "/set") OFF
      = [Ev.turnOff R1] ∧
    ∀ m, m ≠ ON → m ≠ OFF →
      receive_message topicPrefix output
          (topicPrefix ++ "/" ++ RELAY ++ "/" ++ R1 ++ "/set") m = [] := by
  have hex := extractRelay_roundtrip topicPrefix R1 h1 h2
  refine ⟨?_, ?_, ?_⟩
  · unfold receive_message
    rw [hex, hr]
    simp [Option.join, hid]
  · unfold receive_message
    rw [hex, hr]
    simp [Option.join, hid, OFF, ON]
  · intro m hm1 hm2
    unfold receive_message
    rw [hex, hr]
    simp [Option.join, hm1, hm2]

/-- Witness for C1 at a concrete manager: prefix `"home1"`, single output
`"R1"`. -/
theorem receive_message_routes_set_command_witness :
    receive_message "home1"
        [("R1", some { id := "R1", pin := "1", haType := "switch" })]
        "home1/relay/R1/set" "ON" = [Ev.turnOn "R1"] ∧
    receive_message "home1"
        [("R1", some { id := "R1", pin := "1", haType := "switch" })]
        "home1/relay/R1/set" "OFF" = [Ev.turnOff "R1"] ∧
    receive_message "home1"
        [("R1", some { id := "R1", pin := "1", haType := "switch" })]
        "home1/relay/R1/set" "TOGGLE" = [] := by
  have h := receive_message_routes_set_command "home1" "R1"
    [("R1", some { id := "R1", pin := "1", haType := "switch" })]
    { id := "R1", pin := "1", haType := "switch" }
    (by decide) rfl (by decide) (by decide)
  exact ⟨h.1, h.2.1, h.2.2 "TOGGLE" (by decide) (by decide)⟩

/-- C5: an inbound message whose extracted output id is not a key of the
output mapping produces no device operation and no publish: the effect
trace of `receive_message` is empty. -/
theorem receive_message_unknown_id (topicPrefix topic message : String)
    (output : List (String × Option Relay))
    (h : dget output (extractRelay topicPrefix topic) = none) :
    receive_message topicPrefix output topic message = [] := by
  unfold receive_message
  rw [h]
  rfl

/-- Witness for C5: a topic whose extracted id `"R9"` is absent from the
output mapping. -/
theorem receive_message_unknown_id_witness :
    receive_message "home1"
      [("R1", some { id := "R1", pin := "1", haType := "switch" })]
      "home1/relay/R9/set" "ON" = [] :=
  receive_message_unknown_id "home1" "home1/relay/R9/set" "ON"
    [("R1", some { id := "R1", pin := "1", haType := "switch" })] (by decide)

/-- C10: the extraction deletes every occurrence of the two patterns, not a
fixed leading prefix and trailing suffix: the malformed topics
`home1/relay/R1/set/set` and `home1/relay/home1/relay/R1/set` both extract
`"R1"`, and the former still routes the `"ON"` command to the device
registered under `"R1"`. -/
theorem receive_message_deletes_every_occurrence :
    extractRelay "home1" "home1/relay/R1/set/set" = "R1" ∧
    extractRelay "home1" "home1/relay/home1/relay/R1/set" = "R1" ∧
    receive_message "home1"
      [("R1", some { id := "R1", pin := "1", haType := "switch" })]
      "home1/relay/R1/set/set" "ON" = [Ev.turnOn "R1"] := by
  refine ⟨by decide, by decide, by decide⟩

/-- C2: `press_callback` always first publishes `{topic-prefix}/input/{id}`
with the click kind as payload; when the action mapping has an entry for
the click kind with action kind `"output"` whose target resolves in the
output mapping, the only further effect is one `toggle` on that device;
with an unresolved target, a different action kind, or no entry, the input
publish is the whole effect trace. -/
theorem press_callback_spec (topicPrefix : String)
    (output : List (String × Option Relay)) (x inpin : String)
    (actions : List (String × ActionConf)) :
    (∃ rest, press_callback topicPrefix output x inpin actions =
      Ev.pub (topicPrefix ++ "/input/" ++ inpin) (Payload.str x) :: rest) ∧
    (∀ a r, dget actions x = some a → a.action = OUTPUT →
      (dget output a.pin).join = some r →
      press_callback topicPrefix output x inpin actions =
        [Ev.pub (topicPrefix ++ "/input/" ++ inpin) (Payload.str x),
          Ev.toggle r.id]) ∧
    (∀ a, dget actions x = some a → a.action = OUTPUT →
      (dget output a.pin).join = none →
      press_callback topicPrefix output x inpin actions =
        [Ev.pub (topicPrefix ++ "/input/" ++ inpin) (Payload.str x)]) ∧
    (∀ a, dget actions x = some a → a.action ≠ OUTPUT →
      press_callback topicPrefix output x inpin actions =
        [Ev.pub (topicPrefix ++ "/input/" ++ inpin) (Payload.str x)]) ∧
    (dget actions x = none →
      press_callback topicPrefix output x inpin actions =
        [Ev.pub (topicPrefix ++ "/input/" ++ inpin) (Payload.str x)]) := by
  refine ⟨?_, ?_, ?_, ?_, ?_⟩
  · unfold press_callback
    exact ⟨_, rfl⟩
  · intro a r ha hk hr
    unfold press_callback
    rw [ha]
    have hj : ((dget output a.pin).bind fun a => a) = some r := hr
    simp [hk, hj]
  · intro a ha hk hr
    unfold press_callback
    rw [ha]
    have hj : ((dget output a.pin).bind fun a => a) = none := hr
    simp [hk, hj]
  · intro a ha hk
    unfold press_callback
    rw [ha]
    simp [hk]
  · intro ha
    unfold press_callback
    rw [ha]

/-- Witness for C2: click kind `"single"` mapped to
`{action: "output", pin: "R1"}` toggles `R1` after the input publish; click
kind `"double"`, which has no mapping entry, only publishes. -/
theorem press_callback_spec_witness :
    press_callback "home1"
        [("R1", some { id := "R1", pin := "1", haType := "switch" })]
        "single" "IN1" [("single", { action := "output", pin := "R1" })] =
      [Ev.pub "home1/input/IN1" (Payload.str "single"), Ev.toggle "R1"] ∧
    press_callback "home1"
        [("R1", some { id := "R1", pin := "1", haType := "switch" })]
        "double" "IN1" [("single", { action := "output", pin := "R1" })] =
      [Ev.pub "home1/input/IN1" (Payload.str "double")] := by
  constructor
  · exact (press_callback_spec "home1"
      [("R1", some { id := "R1", pin := "1", haType := "switch" })]
      "single" "IN1" [("single", { action := "output", pin := "R1" })]).2.1
      { action := "output", pin := "R1" }
      { id := "R1", pin := "1", haType := "switch" }
      (by decide) rfl (by decide)
  · exact (press_callback_spec "home1"
      [("R1", some { id := "R1", pin := "1", haType := "switch" })]
      "double" "IN1" [("single", { action := "output", pin := "R1" })]).2.2.2.2
      (by decide)

/-- C4, counterexample: with topic prefix `"home1"`, relay `"R1"`, discovery
prefix `"homeassistant"`, ha type `"switch"`, the published payload's
`unique_id` is `"home1relayR1"` — the code builds it as
`f"{topic}{RELAY}{relay_id}"`, never involving the ha type — so it is not
`"home1switchR1"` as claimed. -/
theorem send_ha_autodiscovery_unique_id_cex :
    send_ha_autodiscovery "home1" "R1" "homeassistant" "switch" =
      [Ev.pub "homeassistant/switch/home1/switch/config"
        (Payload.ha (ha_availibilty_message "home1" "R1"))] ∧
    (ha_availibilty_message "home1" "R1").unique_id ≠ "home1switchR1" := by
  refine ⟨rfl, by decide⟩

/-- C4, amended: the same call publishes a payload whose `unique_id` is
`"home1relayR1"` and whose `state_topic` is `"home1/relay/R1"`. -/
theorem send_ha_autodiscovery_unique_id_amended :
    send_ha_autodiscovery "home1" "R1" "homeassistant" "switch" =
      [Ev.pub "homeassistant/switch/home1/switch/config"
        (Payload.ha (ha_availibilty_message "home1" "R1"))] ∧
    (ha_availibilty_message "home1" "R1").unique_id = "home1relayR1" ∧
    (ha_availibilty_message "home1" "R1").state_topic = "home1/relay/R1" := by
  refine ⟨rfl, by decide, by decide⟩

/-- C7: `send_ha_autodiscovery` publishes exactly one message, on
`{prefix}/{ha_type}/{topic-prefix}/{ha_type}/config`, whose payload is the
fixed-shape descriptor with exactly the thirteen fields of
`ha_availibilty_message` spelled out below; topic and payload are given by
this closed formula over the arguments alone, so the call is a pure
function of `(topic-prefix, output id, prefix, ha type)` — equal arguments
publish identical messages. -/
theorem send_ha_autodiscovery_shape (topicPrefix relay prefix_ haType : String) :
    send_ha_autodiscovery topicPrefix relay prefix_ haType =
      [Ev.pub
        (prefix_ ++ "/" ++ haType ++ "/" ++ topicPrefix ++ "/" ++ haType
          ++ "/config")
        (Payload.ha
          { availability := [topicPrefix ++ "/" ++ "state"]
            command_topic := topicPrefix ++ "/relay/" ++ relay ++ "/set"
            device_identifiers := [topicPrefix]
            device_manufacturer := "BoneIO"
            device_model := "BoneIO Relay Board"
            device_name := "BoneIO " ++ topicPrefix
            device_sw_version := appVersion
            name := "Relay " ++ relay
            payload_off := "OFF"
            payload_on := "ON"
            state_topic := topicPrefix ++ "/" ++ "relay" ++ "/" ++ relay
            unique_id := topicPrefix ++ "relay" ++ relay
            value_template := "\x7b\x7b value_json.state \x7d\x7d" })] := rfl

/-- The failing configuration for C3: one expander registered as `"m1"`, one
expander-kind output `"R1"` referencing the unconfigured expander `"m2"`. -/
def badExpanderConfig : Config :=
  { topicPrefix := "home1"
    relayPins :=
      [{ kind := "mcp", id := "R1", pin := "1", mcpId := some "m2",
         haType := "switch" }]
    inputPins := []
    haDiscovery := true
    haDiscoveryPrefix := "homeassistant"
    mcp23017 := [{ id := some "m1", address := 32, initSleep := some 0 }]
    oled := false
    web := true }

/-- C3 (code bug): on a configuration whose only output references a missing
expander, construction logs the one error and then raises `AttributeError`
instead of continuing: `configure_relay` returns `None`, the comprehension
stores `R1 ↦ None` in `self.output` (the id is not omitted), and the
discovery/state-scheduling loop reads `.id` / `.send_state` on that `None`.
No `"online"` status is ever published. -/
theorem initManager_missing_expander_raises :
    initManager badExpanderConfig =
      Except.error (InitError.attrError,
        [Ev.acquire 32, Ev.regMcp (MKey.str "m1"), Ev.sleep 0,
          Ev.regGroup (MKey.str "m1"),
          Ev.logError "No such MCP configured!"]) := rfl

/-- The four construction effects of one configured expander, in the order
`Manager.__init__` performs them: acquire the `MCP23017` handle at the bus
address, register it under the effective id (`mcp[ID] or mcp[ADDRESS]`),
sleep the configured settle time (defaulting to 0), register the empty
output group under the same id. -/
def mcpBlock (c : McpConfig) : List Ev :=
  [Ev.acquire c.address, Ev.regMcp (effKey c), Ev.sleep (c.initSleep.getD 0),
    Ev.regGroup (effKey c)]

/-- The expander-registration loop emits exactly the per-expander blocks, in
configuration order. -/
theorem initMcps_trace :
    ∀ (cs : List McpConfig) (mcp : List (MKey × Nat)) (grouped : GMap),
      (initMcps mcp grouped cs).2.2 = (cs.map mcpBlock).flatten := by
  intro cs
  induction cs with
  | nil => intro mcp grouped; rfl
  | cons c cs ih =>
    intro mcp grouped
    simp [initMcps, mcpBlock, ih]

/-- No publish happens during expander registration. -/
theorem initMcps_no_pub :
    ∀ (cs : List McpConfig) (mcp : List (MKey × Nat)) (grouped : GMap)
      (t : String) (p : Payload), Ev.pub t p ∉ (initMcps mcp grouped cs).2.2 := by
  intro cs
  induction cs with
  | nil => intro mcp grouped t p h; simp [initMcps] at h
  | cons c cs ih =>
    intro mcp grouped t p h
    simp only [initMcps, List.mem_cons] at h
    rcases h with h | h | h | h | h <;> first
      | exact Ev.noConfusion h
      | exact ih _ _ _ _ h

/-- The trace of one `configure_relay` call is empty, one error log, or one
output-construction marker. -/
theorem configure_relay_trace (mcp : List (MKey × Nat)) (grouped : GMap)
    (g : GpioConf) :
    (configure_relay mcp grouped g).2.2 = [] ∨
    (configure_relay mcp grouped g).2.2 =
      [Ev.logError "No such MCP configured!"] ∨
    (configure_relay mcp grouped g).2.2 = [Ev.mkOutput g.id] := by
  unfold configure_relay
  by_cases h1 : g.kind = MCP
  · simp only [h1, if_true]
    cases dget mcp (MKey.str (g.mcpId.getD "")) with
    | none => right; left; rfl
    | some a => right; right; rfl
  · simp only [h1, if_false]
    by_cases h2 : g.kind = GPIO
    · simp only [h2, if_true]
      right; right
      first | rfl | trivial
    · simp only [h2, if_false]
      left
      first | rfl | trivial

/-- No publish happens during output construction. -/
theorem buildOutputs_no_pub :
    ∀ (gs : List GpioConf) (mcp : List (MKey × Nat)) (grouped : GMap)
      (outAcc : List (String × Option Relay)) (t : String) (p : Payload),
      Ev.pub t p ∉ (buildOutputs mcp grouped outAcc gs).2.2 := by
  intro gs
  induction gs with
  | nil => intro mcp grouped outAcc t p h; simp [buildOutputs] at h
  | cons g gs ih =>
    intro mcp grouped outAcc t p h
    simp only [buildOutputs, List.mem_append] at h
    rcases h with h | h
    · rcases configure_relay_trace mcp grouped g with hc | hc | hc <;>
        rw [hc] at h <;> simp at h
    · exact ih _ _ _ _ _ h

/-- Every publish of a successful discovery/state-scheduling loop carries a
structured autodiscovery payload, never a plain string. -/
theorem discoveryLoop_ok_no_str_pub (tp : String) (hd : Bool) (hp : String) :
    ∀ (outs : List (String × Option Relay)) (tr : List Ev),
      discoveryLoop tp hd hp outs = Except.ok tr →
      ∀ (t s : String), Ev.pub t (Payload.str s) ∉ tr := by
  intro outs
  induction outs with
  | nil =>
    intro tr h t s
    simp only [discoveryLoop] at h
    cases h
    simp
  | cons kv rest ih =>
    obtain ⟨k, v⟩ := kv
    cases v with
    | none =>
      intro tr h
      simp [discoveryLoop] at h
    | some r =>
      intro tr h t s hmem
      simp only [discoveryLoop] at h
      cases hrec : discoveryLoop tp hd hp rest with
      | error e => rw [hrec] at h; exact Except.noConfusion h
      | ok tr2 =>
        rw [hrec] at h
        cases h
        simp only [List.mem_append] at hmem
        rcases hmem with hmem | hmem
        · rcases hmem with hmem | hmem
          · cases hd with
            | false => simp at hmem
            | true =>
              simp [send_ha_autodiscovery] at hmem
          · simp only [List.mem_singleton] at hmem
            exact Ev.noConfusion hmem
        · exact ih tr2 hrec t s hmem

/-- C8: a successful construction publishes the `"online"` status message on
`{topic-prefix}/state` exactly once, and it is the very last effect of
construction — in particular after every autodiscovery descriptor publish
and every other construction effect. -/
theorem initManager_online_last (cfg : Config) (m : Manager) (tr : List Ev)
    (h : initManager cfg = Except.ok (m, tr)) :
    tr.count (Ev.pub (cfg.topicPrefix ++ "/" ++ STATE) (Payload.str ONLINE))
      = 1 ∧
    ∃ tr0, tr = tr0 ++
      [Ev.pub (cfg.topicPrefix ++ "/" ++ STATE) (Payload.str ONLINE)] := by
  simp only [initManager] at h
  cases hdl : discoveryLoop cfg.topicPrefix cfg.haDiscovery
      cfg.haDiscoveryPrefix
      (buildOutputs (initMcps [] [] cfg.mcp23017).1
        (initMcps [] [] cfg.mcp23017).2.1 [] cfg.relayPins).2.1 with
  | error e =>
    rw [hdl] at h
    exact Except.noConfusion h
  | ok tr1 =>
    rw [hdl] at h
    rw [Except.ok.injEq, Prod.mk.injEq] at h
    obtain ⟨-, htr⟩ := h
    subst htr
    have hA := initMcps_no_pub cfg.mcp23017 [] []
      (cfg.topicPrefix ++ "/" ++ STATE) (Payload.str ONLINE)
    have hB := buildOutputs_no_pub cfg.relayPins (initMcps [] [] cfg.mcp23017).1
      (initMcps [] [] cfg.mcp23017).2.1 []
      (cfg.topicPrefix ++ "/" ++ STATE) (Payload.str ONLINE)
    have hC := discoveryLoop_ok_no_str_pub cfg.topicPrefix cfg.haDiscovery
      cfg.haDiscoveryPrefix _ tr1 hdl (cfg.topicPrefix ++ "/" ++ STATE) ONLINE
    constructor
    · rw [List.count_append, List.count_append, List.count_append]
      rw [List.count_eq_zero.mpr hA, List.count_eq_zero.mpr hB,
        List.count_eq_zero.mpr hC]
      simp
    · exact ⟨_, by rw [List.append_assoc, List.append_assoc,
        ← List.append_assoc]⟩

/-- A concrete configuration on which construction succeeds: one expander
`"m1"` at address 32, one expander output `"R1"` on it, one direct output
`"R2"`. -/
def okConfig : Config :=
  { topicPrefix := "home1"
    relayPins :=
      [{ kind := "mcp", id := "R1", pin := "1", mcpId := some "m1",
         haType := "switch" },
       { kind := "gpio", id := "R2", pin := "P9_1", mcpId := none,
         haType := "switch" }]
    inputPins := []
    haDiscovery := true
    haDiscoveryPrefix := "homeassistant"
    mcp23017 := [{ id := some "m1", address := 32, initSleep := some 0 }]
    oled := false
    web := false }

/-- The manager state `initManager okConfig` constructs. -/
def okManager : Manager :=
  ⟨"home1", "home1/relay/+/set",
    [("R1", some ⟨"R1", "1", "switch"⟩), ("R2", some ⟨"R2", "P9_1", "switch"⟩)],
    [(MKey.str "m1", [("R1", ⟨"R1", "1", "switch"⟩)]),
     (MKey.str "gpio", [("R2", ⟨"R2", "P9_1", "switch"⟩)])],
    [(MKey.str "m1", 32)], [], false, false⟩

/-- The construction trace of `initManager okConfig`. -/
def okTrace : List Ev :=
  [Ev.acquire 32, Ev.regMcp (MKey.str "m1"), Ev.sleep 0,
    Ev.regGroup (MKey.str "m1"), Ev.mkOutput "R1", Ev.mkOutput "R2",
    Ev.pub "homeassistant/switch/home1/switch/config"
      (Payload.ha (ha_availibilty_message "home1" "R1")),
    Ev.schedule "R1",
    Ev.pub "homeassistant/switch/home1/switch/config"
      (Payload.ha (ha_availibilty_message "home1" "R2")),
    Ev.schedule "R2",
    Ev.pub "home1/state" (Payload.str "online")]

/-- Witness for C8 on `okConfig`. -/
theorem initManager_online_last_witness :
    okTrace.count (Ev.pub "home1/state" (Payload.str "online")) = 1 ∧
    ∃ tr0, okTrace = tr0 ++ [Ev.pub "home1/state" (Payload.str "online")] :=
  initManager_online_last okConfig okManager okTrace rfl

/-- Writing a key then reading it gives the written value. -/
theorem dget_dput_self {K V : Type} [DecidableEq K] (d : List (K × V))
    (k : K) (v : V) : dget (dput d k v) k = some v := by
  induction d with
  | nil => simp [dput, dget]
  | cons e es ih =>
    by_cases h : e.1 = k
    · simp [dput, dget, h]
    · simp [dput, dget, h, ih]

/-- Writing one key leaves reads of other keys unchanged. -/
theorem dget_dput_ne {K V : Type} [DecidableEq K] (d : List (K × V))
    (k k2 : K) (v : V) (h : k ≠ k2) : dget (dput d k v) k2 = dget d k2 := by
  induction d with
  | nil => simp [dput, dget, h]
  | cons e es ih =>
    by_cases he : e.1 = k
    · simp [dput, dget, he, h]
    · simp [dput, dget, he, ih]

/-- Once a key is bound in the expander registry it stays bound through the
rest of the registration loop. -/
theorem initMcps_keeps_bound :
    ∀ (cs : List McpConfig) (mcp : List (MKey × Nat)) (grouped : GMap)
      (k : MKey) (a : Nat), dget mcp k = some a →
      ∃ b, dget (initMcps mcp grouped cs).1 k = some b := by
  intro cs
  induction cs with
  | nil => intro mcp grouped k a h; exact ⟨a, h⟩
  | cons c cs ih =>
    intro mcp grouped k a h
    by_cases hk : effKey c = k
    · subst hk
      exact ih _ _ _ c.address (dget_dput_self mcp (effKey c) c.address)
    · exact ih _ _ _ a
        (by rw [dget_dput_ne mcp (effKey c) k c.address hk]; exact h)

/-- After the registration loop, every configured expander's effective id is
bound in the registry. -/
theorem initMcps_registers :
    ∀ (cs : List McpConfig) (mcp : List (MKey × Nat)) (grouped : GMap)
      (c : McpConfig), c ∈ cs →
      ∃ b, dget (initMcps mcp grouped cs).1 (effKey c) = some b := by
  intro cs
  induction cs with
  | nil => intro mcp grouped c hc; simp at hc
  | cons c0 cs ih =>
    intro mcp grouped c hc
    rcases List.mem_cons.mp hc with h | h
    · subst h
      exact initMcps_keeps_bound cs _ _ (effKey c) c.address
        (dget_dput_self mcp (effKey c) c.address)
    · exact ih _ _ c h

/-- The expander-phase trace contains no output-construction event. -/
theorem mcpBlocks_no_mkOutput :
    ∀ (cs : List McpConfig) (oid : String),
      Ev.mkOutput oid ∉ (cs.map mcpBlock).flatten := by
  intro cs
  induction cs with
  | nil => intro oid h; simp at h
  | cons c cs ih =>
    intro oid h
    simp only [List.map_cons, List.flatten_cons, List.mem_append] at h
    rcases h with h | h
    · simp [mcpBlock] at h
    · exact ih oid h

/-- C9: on a successful construction, the trace starts with the per-expander
blocks — acquire the handle at the bus address, register it under the
configured id (`effKey` encodes the default to the bus address when the id
is unnamed), block for the configured settle time, then register the empty
output group under the same id — in configuration order, and every
output-construction event lies strictly after the whole expander phase; the
registry of the constructed manager holds a handle under every configured
expander's effective id. -/
theorem initManager_expander_phase (cfg : Config) (m : Manager) (tr : List Ev)
    (h : initManager cfg = Except.ok (m, tr)) :
    (∃ rest, tr = (cfg.mcp23017.map mcpBlock).flatten ++ rest) ∧
    (∀ oid, Ev.mkOutput oid ∉ (cfg.mcp23017.map mcpBlock).flatten) ∧
    ∀ c ∈ cfg.mcp23017, ∃ a, dget m.mcp (effKey c) = some a := by
  simp only [initManager] at h
  cases hdl : discoveryLoop cfg.topicPrefix cfg.haDiscovery
      cfg.haDiscoveryPrefix
      (buildOutputs (initMcps [] [] cfg.mcp23017).1
        (initMcps [] [] cfg.mcp23017).2.1 [] cfg.relayPins).2.1 with
  | error e =>
    rw [hdl] at h
    exact Except.noConfusion h
  | ok tr1 =>
    rw [hdl] at h
    rw [Except.ok.injEq, Prod.mk.injEq] at h
    obtain ⟨hm, htr⟩ := h
    refine ⟨?_, ?_, ?_⟩
    · refine ⟨(buildOutputs (initMcps [] [] cfg.mcp23017).1
        (initMcps [] [] cfg.mcp23017).2.1 [] cfg.relayPins).2.2 ++ tr1 ++
        [Ev.pub (cfg.topicPrefix ++ "/" ++ STATE) (Payload.str ONLINE)], ?_⟩
      rw [← htr, ← initMcps_trace cfg.mcp23017 [] []]
      simp [List.append_assoc]
    · exact mcpBlocks_no_mkOutput cfg.mcp23017
    · intro c hc
      rw [← hm]
      exact initMcps_registers cfg.mcp23017 [] [] c hc

/-- Witness for C9 on `okConfig`. -/
theorem initManager_expander_phase_witness :
    (∃ rest, okTrace =
      [Ev.acquire 32, Ev.regMcp (MKey.str "m1"), Ev.sleep 0,
        Ev.regGroup (MKey.str "m1")] ++ rest) ∧
    ∃ a, dget okManager.mcp
      (effKey { id := some "m1", address := 32, initSleep := some 0 })
        = some a := by
  have h := initManager_expander_phase okConfig okManager okTrace rfl
  obtain ⟨⟨rest, hrest⟩, -, hreg⟩ := h
  exact ⟨⟨rest, hrest⟩,
    hreg { id := some "m1", address := 32, initSleep := some 0 } (by decide)⟩

/-- Number of entries bound to `id` inside one output group. -/
def entriesIn (grp : List (String × Relay)) (id : String) : Nat :=
  (grp.filter (fun e => e.1 = id)).length

/-- Total number of OutputDevices registered under `id` across all groups. -/
def totalEntries (grouped : GMap) (id : String) : Nat :=
  (grouped.map (fun g => entriesIn g.2 id)).sum

/-- The keys of the groups in which `id` is registered, in registry order. -/
def groupsContaining (grouped : GMap) (id : String) : List MKey :=
  (grouped.filter (fun g => (dget g.2 id).isSome)).map (fun g => g.1)

/-- The group key an output configuration is meant to land in: its expander's
key for expander kind, the synthetic direct group otherwise. -/
def outKey (g : GpioConf) : MKey :=
  if g.kind = MCP then MKey.str (g.mcpId.getD "") else MKey.str GPIO

/-- Whether `configure_relay` constructs a device for this configuration: an
expander output needs its expander registered; otherwise only the direct
kind is recognized. -/
def okRelay (mcp : List (MKey × Nat)) (g : GpioConf) : Bool :=
  if g.kind = MCP then (dget mcp (MKey.str (g.mcpId.getD ""))).isSome
  else g.kind = GPIO

/-- Empty-group entry count. -/
@[simp] theorem entriesIn_nil (id : String) :
    entriesIn [] id = 0 := rfl

/-- Cons unfolding of `entriesIn`. -/
theorem entriesIn_cons (e : String × Relay) (es : List (String × Relay))
    (id : String) :
    entriesIn (e :: es) id =
      if e.1 = id then entriesIn es id + 1 else entriesIn es id := by
  by_cases h : e.1 = id <;> simp [entriesIn, List.filter_cons, h]

/-- Empty-registry total. -/
@[simp] theorem totalEntries_nil (id : String) :
    totalEntries [] id = 0 := rfl

/-- Cons unfolding of `totalEntries`. -/
@[simp] theorem totalEntries_cons (g : MKey × List (String × Relay))
    (gs : GMap) (id : String) :
    totalEntries (g :: gs) id = entriesIn g.2 id + totalEntries gs id := by
  simp [totalEntries]

/-- Empty-registry containing groups. -/
@[simp] theorem groupsContaining_nil (id : String) :
    groupsContaining [] id = [] := rfl

/-- Cons unfolding of `groupsContaining`. -/
theorem groupsContaining_cons (g : MKey × List (String × Relay)) (gs : GMap)
    (id : String) :
    groupsContaining (g :: gs) id =
      if (dget g.2 id).isSome = true then g.1 :: groupsContaining gs id
      else groupsContaining gs id := by
  by_cases h : (dget g.2 id).isSome = true <;>
    simp [groupsContaining, List.filter_cons, h]

/-- A group holds no entry for `id` exactly when a read of `id` misses. -/
theorem entriesIn_eq_zero_iff (grp : List (String × Relay)) (id : String) :
    entriesIn grp id = 0 ↔ dget grp id = none := by
  induction grp with
  | nil => simp [dget]
  | cons e es ih =>
    by_cases h : e.1 = id
    · simp [entriesIn_cons, dget, h]
    · simp [entriesIn_cons, dget, h, ih]

/-- Writing `id` into a group that held no entry for it yields exactly one. -/
theorem entriesIn_dput_self (grp : List (String × Relay)) (id : String)
    (r : Relay) (h : entriesIn grp id = 0) :
    entriesIn (dput grp id r) id = 1 := by
  induction grp with
  | nil => simp [dput, entriesIn_cons]
  | cons e es ih =>
    by_cases he : e.1 = id
    · rw [entriesIn_cons, if_pos he] at h
      omega
    · rw [entriesIn_cons, if_neg he] at h
      rw [dput, if_neg he, entriesIn_cons, if_neg he]
      exact ih h

/-- Writing `id` into a group leaves the entry count of other ids alone. -/
theorem entriesIn_dput_ne (grp : List (String × Relay)) (id id2 : String)
    (r : Relay) (h : id ≠ id2) :
    entriesIn (dput grp id r) id2 = entriesIn grp id2 := by
  induction grp with
  | nil => simp [dput, entriesIn_cons, h]
  | cons e es ih =>
    by_cases he : e.1 = id
    · rw [dput, if_pos he, entriesIn_cons, entriesIn_cons]
      simp only [he]
    · rw [dput, if_neg he, entriesIn_cons, entriesIn_cons, ih]

/-- Writing to an absent key appends the binding. -/
theorem dput_absent {K V : Type} [DecidableEq K] (d : List (K × V)) (k : K)
    (v : V) (h : dget d k = none) : dput d k v = d ++ [(k, v)] := by
  induction d with
  | nil => rfl
  | cons e es ih =>
    by_cases he : e.1 = k
    · simp [dget, he] at h
    · simp only [dget, he, if_false] at h
      simp [dput, he, ih h]

/-- A registry of empty groups holds no entry for any id. -/
theorem totalEntries_of_all_empty (grouped : GMap)
    (h : ∀ kv ∈ grouped, kv.2 = ([] : List (String × Relay))) (id : String) :
    totalEntries grouped id = 0 := by
  induction grouped with
  | nil => rfl
  | cons g gs ih =>
    rw [totalEntries_cons, h g (List.mem_cons_self g gs),
      ih (fun kv hkv => h kv (List.mem_cons_of_mem g hkv))]
    rfl

/-- An id with no entries anywhere is contained in no group. -/
theorem groupsContaining_of_zero (grouped : GMap) (id : String)
    (h : totalEntries grouped id = 0) : groupsContaining grouped id = [] := by
  induction grouped with
  | nil => rfl
  | cons g gs ih =>
    rw [totalEntries_cons, Nat.add_eq_zero] at h
    have hdg : dget g.2 id = none := (entriesIn_eq_zero_iff g.2 id).mp h.1
    rw [groupsContaining_cons, hdg]
    simpa using ih h.2

/-- Inserting `id` into a group changes no other id's total count. -/
theorem totalEntries_insert_ne (grouped : GMap) (k : MKey) (id id2 : String)
    (r : Relay) (h : id ≠ id2) :
    totalEntries (insertIntoGroup grouped k id r) id2 =
      totalEntries grouped id2 := by
  induction grouped with
  | nil =>
    simp [insertIntoGroup, dget, dput, entriesIn_cons, h]
  | cons g gs ih =>
    by_cases hk : g.1 = k
    · rw [insertIntoGroup, dget, if_pos hk, Option.getD_some, dput, if_pos hk,
        totalEntries_cons, totalEntries_cons,
        entriesIn_dput_ne g.2 id id2 r h]
    · rw [insertIntoGroup, dget, if_neg hk, dput, if_neg hk,
        totalEntries_cons, totalEntries_cons]
      rw [insertIntoGroup] at ih
      rw [ih]

/-- Inserting `id` into a group changes no other id's containing groups. -/
theorem groupsContaining_insert_ne (grouped : GMap) (k : MKey)
    (id id2 : String) (r : Relay) (h : id ≠ id2) :
    groupsContaining (insertIntoGroup grouped k id r) id2 =
      groupsContaining grouped id2 := by
  induction grouped with
  | nil =>
    simp [insertIntoGroup, dget, dput, groupsContaining_cons,
      dget_dput_ne ([] : List (String × Relay)) id id2 r h, dget]
    exact h
  | cons g gs ih =>
    by_cases hk : g.1 = k
    · rw [insertIntoGroup, dget, if_pos hk, Option.getD_some, dput, if_pos hk,
        groupsContaining_cons, groupsContaining_cons,
        dget_dput_ne g.2 id id2 r h, hk]
    · rw [insertIntoGroup, dget, if_neg hk, dput, if_neg hk,
        groupsContaining_cons, groupsContaining_cons]
      rw [insertIntoGroup] at ih
      rw [ih]

/-- Inserting a fresh `id` yields exactly one entry for it overall. -/
theorem totalEntries_insert_self (grouped : GMap) (k : MKey) (id : String)
    (r : Relay) (h : totalEntries grouped id = 0) :
    totalEntries (insertIntoGroup grouped k id r) id = 1 := by
  induction grouped with
  | nil => simp [insertIntoGroup, dget, dput, entriesIn_cons]
  | cons g gs ih =>
    rw [totalEntries_cons, Nat.add_eq_zero] at h
    by_cases hk : g.1 = k
    · rw [insertIntoGroup, dget, if_pos hk, Option.getD_some, dput, if_pos hk,
        totalEntries_cons, entriesIn_dput_self g.2 id r h.1, h.2]
    · rw [insertIntoGroup, dget, if_neg hk, dput, if_neg hk,
        totalEntries_cons, h.1]
      rw [insertIntoGroup] at ih
      rw [ih h.2]

/-- Inserting a fresh `id` registers it in exactly the target group. -/
theorem groupsContaining_insert_self (grouped : GMap) (k : MKey) (id : String)
    (r : Relay) (h : totalEntries grouped id = 0) :
    groupsContaining (insertIntoGroup grouped k id r) id = [k] := by
  induction grouped with
  | nil =>
    simp [insertIntoGroup, dget, dput, groupsContaining_cons, dget_dput_self]
  | cons g gs ih =>
    rw [totalEntries_cons, Nat.add_eq_zero] at h
    by_cases hk : g.1 = k
    · rw [insertIntoGroup, dget, if_pos hk, Option.getD_some, dput, if_pos hk,
        groupsContaining_cons, dget_dput_self g.2 id r]
      simp [groupsContaining_of_zero gs id h.2]
    · rw [insertIntoGroup, dget, if_neg hk, dput, if_neg hk,
        groupsContaining_cons, (entriesIn_eq_zero_iff g.2 id).mp h.1]
      rw [insertIntoGroup] at ih
      simpa using ih h.2

/-- Appending an empty group changes no id's total count. -/
theorem totalEntries_append_empty (d : GMap) (k : MKey) (id : String) :
    totalEntries (d ++ [(k, [])]) id = totalEntries d id := by
  induction d with
  | nil => simp
  | cons g gs ih => simp [ih]

/-- Appending an empty group changes no id's containing groups. -/
theorem groupsContaining_append_empty (d : GMap) (k : MKey) (id : String) :
    groupsContaining (d ++ [(k, [])]) id = groupsContaining d id := by
  induction d with
  | nil => simp [groupsContaining_cons, dget]
  | cons g gs ih =>
    rw [List.cons_append, groupsContaining_cons, groupsContaining_cons, ih]

/-- One `configure_relay` call constructs a device exactly when the
configuration is recognized and resolvable. -/
theorem configure_relay_isSome (mcp : List (MKey × Nat)) (grouped : GMap)
    (g : GpioConf) :
    (configure_relay mcp grouped g).2.1.isSome = okRelay mcp g := by
  simp only [configure_relay, okRelay]
  by_cases h1 : g.kind = MCP
  · rw [if_pos h1, if_pos h1]
    cases hdg : dget mcp (MKey.str (g.mcpId.getD "")) <;> simp
  · rw [if_neg h1, if_neg h1]
    by_cases h2 : g.kind = GPIO
    · rw [if_pos h2]
      simp [h2]
    · rw [if_neg h2]
      simp [h2]

/-- One `configure_relay` call does not disturb the registration of any
other id. -/
theorem configure_relay_preserves (mcp : List (MKey × Nat)) (grouped : GMap)
    (g : GpioConf) (id2 : String) (h : g.id ≠ id2) :
    totalEntries (configure_relay mcp grouped g).1 id2 =
      totalEntries grouped id2 ∧
    groupsContaining (configure_relay mcp grouped g).1 id2 =
      groupsContaining grouped id2 := by
  simp only [configure_relay]
  by_cases h1 : g.kind = MCP
  · rw [if_pos h1]
    cases hdg : dget mcp (MKey.str (g.mcpId.getD ""))
    · exact ⟨rfl, rfl⟩
    · exact ⟨totalEntries_insert_ne grouped _ g.id id2 _ h,
        groupsContaining_insert_ne grouped _ g.id id2 _ h⟩
  · rw [if_neg h1]
    by_cases h2 : g.kind = GPIO
    · rw [if_pos h2]
      by_cases h3 : (dget grouped (MKey.str GPIO)).isSome = true
      · rw [if_pos h3]
        exact ⟨totalEntries_insert_ne grouped _ g.id id2 _ h,
          groupsContaining_insert_ne grouped _ g.id id2 _ h⟩
      · rw [if_neg h3]
        have habs : dget grouped (MKey.str GPIO) = none :=
          Option.not_isSome_iff_eq_none.mp (by simpa using h3)
        rw [dput_absent grouped (MKey.str GPIO) [] habs]
        exact ⟨(totalEntries_insert_ne _ _ g.id id2 _ h).trans
            (totalEntries_append_empty grouped _ id2),
          (groupsContaining_insert_ne _ _ g.id id2 _ h).trans
            (groupsContaining_append_empty grouped _ id2)⟩
    · rw [if_neg h2]
      exact ⟨rfl, rfl⟩

/-- A successful `configure_relay` call on a fresh id registers the device
exactly once, in exactly the group of its configured kind. -/
theorem configure_relay_registers (mcp : List (MKey × Nat)) (grouped : GMap)
    (g : GpioConf) (hok : okRelay mcp g = true)
    (h0 : totalEntries grouped g.id = 0) :
    totalEntries (configure_relay mcp grouped g).1 g.id = 1 ∧
    groupsContaining (configure_relay mcp grouped g).1 g.id = [outKey g] := by
  simp only [configure_relay, okRelay, outKey] at hok ⊢
  by_cases h1 : g.kind = MCP
  · rw [if_pos h1] at hok
    rw [if_pos h1, if_pos h1]
    cases hdg : dget mcp (MKey.str (g.mcpId.getD ""))
    · rw [hdg] at hok
      simp at hok
    · exact ⟨totalEntries_insert_self grouped _ g.id _ h0,
        groupsContaining_insert_self grouped _ g.id _ h0⟩
  · rw [if_neg h1] at hok
    rw [if_neg h1, if_neg h1]
    by_cases h2 : g.kind = GPIO
    · rw [if_pos h2]
      by_cases h3 : (dget grouped (MKey.str GPIO)).isSome = true
      · rw [if_pos h3]
        exact ⟨totalEntries_insert_self grouped _ g.id _ h0,
          groupsContaining_insert_self grouped _ g.id _ h0⟩
      · rw [if_neg h3]
        have habs : dget grouped (MKey.str GPIO) = none :=
          Option.not_isSome_iff_eq_none.mp (by simpa using h3)
        rw [dput_absent grouped (MKey.str GPIO) [] habs]
        have h0a : totalEntries (grouped ++ [(MKey.str GPIO, [])]) g.id = 0 :=
          by rw [totalEntries_append_empty]; exact h0
        exact ⟨totalEntries_insert_self _ _ g.id _ h0a,
          groupsContaining_insert_self _ _ g.id _ h0a⟩
    · exfalso
      simp [h2] at hok

/-- Output construction does not disturb the registration of ids that none
of the remaining configurations carries. -/
theorem buildOutputs_preserves (mcp : List (MKey × Nat)) :
    ∀ (gs : List GpioConf) (grouped : GMap)
      (outAcc : List (String × Option Relay)) (id2 : String),
      (∀ g ∈ gs, g.id ≠ id2) →
      totalEntries (buildOutputs mcp grouped outAcc gs).1 id2 =
        totalEntries grouped id2 ∧
      groupsContaining (buildOutputs mcp grouped outAcc gs).1 id2 =
        groupsContaining grouped id2 := by
  intro gs
  induction gs with
  | nil => intro grouped outAcc id2 _; exact ⟨rfl, rfl⟩
  | cons g0 gs ih =>
    intro grouped outAcc id2 hne
    simp only [buildOutputs]
    have hg0 : g0.id ≠ id2 := hne g0 (List.mem_cons_self g0 gs)
    have hpres := configure_relay_preserves mcp grouped g0 id2 hg0
    have hrest := ih (configure_relay mcp grouped g0).1
      (dput outAcc g0.id (configure_relay mcp grouped g0).2.1) id2
      (fun g hg => hne g (List.mem_cons_of_mem g0 hg))
    exact ⟨hrest.1.trans hpres.1, hrest.2.trans hpres.2⟩

/-- Output construction leaves dictionary keys that none of the remaining
configurations carries untouched. -/
theorem buildOutputs_dget_preserved (mcp : List (MKey × Nat)) :
    ∀ (gs : List GpioConf) (grouped : GMap)
      (outAcc : List (String × Option Relay)) (k : String),
      (∀ g ∈ gs, g.id ≠ k) →
      dget (buildOutputs mcp grouped outAcc gs).2.1 k = dget outAcc k := by
  intro gs
  induction gs with
  | nil => intro grouped outAcc k _; rfl
  | cons g0 gs ih =>
    intro grouped outAcc k hne
    simp only [buildOutputs]
    rw [ih _ _ k (fun g hg => hne g (List.mem_cons_of_mem g0 hg)),
      dget_dput_ne outAcc g0.id k _ (hne g0 (List.mem_cons_self g0 gs))]

/-- A successful read pins down a member of the dictionary. -/
theorem dget_some_mem {K V : Type} [DecidableEq K] (d : List (K × V)) (k : K)
    (v : V) (h : dget d k = some v) : (k, v) ∈ d := by
  induction d with
  | nil => exact Option.noConfusion h
  | cons e es ih =>
    by_cases he : e.1 = k
    · rw [dget, if_pos he, Option.some.injEq] at h
      have hev : e = (k, v) := by
        obtain ⟨e1, e2⟩ := e
        simp_all
      rw [← hev]
      exact List.mem_cons_self e es
    · rw [dget, if_neg he] at h
      exact List.mem_cons_of_mem e (ih h)

/-- A successful discovery loop rules out `None` values in the output
mapping. -/
theorem discoveryLoop_ok_isSome (tp : String) (hd : Bool) (hp : String) :
    ∀ (outs : List (String × Option Relay)) (tr : List Ev),
      discoveryLoop tp hd hp outs = Except.ok tr →
      ∀ kv ∈ outs, kv.2.isSome = true := by
  intro outs
  induction outs with
  | nil => intro tr _ kv hkv; exact absurd hkv (List.not_mem_nil kv)
  | cons kv0 rest ih =>
    obtain ⟨k, v⟩ := kv0
    cases v with
    | none =>
      intro tr h
      simp [discoveryLoop] at h
    | some r =>
      intro tr h kv hkv
      simp only [discoveryLoop] at h
      cases hrec : discoveryLoop tp hd hp rest with
      | error e => rw [hrec] at h; exact Except.noConfusion h
      | ok tr2 =>
        rcases List.mem_cons.mp hkv with rfl | hkv2
        · rfl
        · exact ih tr2 hrec kv hkv2

/-- On a distinct-id configuration whose construction ends in a successful
discovery loop, every output configuration was recognized and resolvable. -/
theorem buildOutputs_ok (mcp : List (MKey × Nat)) :
    ∀ (gs : List GpioConf) (grouped : GMap)
      (outAcc : List (String × Option Relay)),
      (gs.map (fun g => g.id)).Nodup →
      (∀ kv ∈ (buildOutputs mcp grouped outAcc gs).2.1, kv.2.isSome = true) →
      ∀ g ∈ gs, okRelay mcp g = true := by
  intro gs
  induction gs with
  | nil => intro grouped outAcc _ _ g hg; exact absurd hg (List.not_mem_nil g)
  | cons g0 gs ih =>
    intro grouped outAcc hnd hall g hg
    simp only [List.map_cons, List.nodup_cons] at hnd
    simp only [buildOutputs] at hall
    rcases List.mem_cons.mp hg with rfl | hgtail
    · have hne : ∀ g2 ∈ gs, g2.id ≠ g.id := by
        intro g2 hg2 he
        exact hnd.1 (List.mem_map.mpr ⟨g2, hg2, he⟩)
      have hdg := buildOutputs_dget_preserved mcp gs
        (configure_relay mcp grouped g).1
        (dput outAcc g.id (configure_relay mcp grouped g).2.1) g.id hne
      rw [dget_dput_self] at hdg
      have hval := hall _ (dget_some_mem _ _ _ hdg)
      rw [← configure_relay_isSome mcp grouped g]
      exact hval
    · exact ih (configure_relay mcp grouped g0).1
        (dput outAcc g0.id (configure_relay mcp grouped g0).2.1)
        hnd.2 hall g hgtail

/-- Master induction for C6: on a distinct-id, fully resolvable
configuration starting from a registry with none of the ids present, output
construction registers each id exactly once, in exactly the group of its
kind. -/
theorem buildOutputs_registers (mcp : List (MKey × Nat)) :
    ∀ (gs : List GpioConf) (grouped : GMap)
      (outAcc : List (String × Option Relay)),
      (gs.map (fun g => g.id)).Nodup →
      (∀ g ∈ gs, okRelay mcp g = true) →
      (∀ g ∈ gs, totalEntries grouped g.id = 0) →
      ∀ g ∈ gs,
        totalEntries (buildOutputs mcp grouped outAcc gs).1 g.id = 1 ∧
        groupsContaining (buildOutputs mcp grouped outAcc gs).1 g.id =
          [outKey g] := by
  intro gs
  induction gs with
  | nil => intro grouped outAcc _ _ _ g hg; exact absurd hg (List.not_mem_nil g)
  | cons g0 gs ih =>
    intro grouped outAcc hnd hok h0 g hg
    simp only [List.map_cons, List.nodup_cons] at hnd
    simp only [buildOutputs]
    rcases List.mem_cons.mp hg with rfl | hgtail
    · have hne : ∀ g2 ∈ gs, g2.id ≠ g.id := by
        intro g2 hg2 he
        exact hnd.1 (List.mem_map.mpr ⟨g2, hg2, he⟩)
      have hcr := configure_relay_registers mcp grouped g
        (hok g (List.mem_cons_self g gs)) (h0 g (List.mem_cons_self g gs))
      have hpres := buildOutputs_preserves mcp gs
        (configure_relay mcp grouped g).1
        (dput outAcc g.id (configure_relay mcp grouped g).2.1) g.id hne
      exact ⟨hpres.1.trans hcr.1, hpres.2.trans hcr.2⟩
    · refine ih (configure_relay mcp grouped g0).1
        (dput outAcc g0.id (configure_relay mcp grouped g0).2.1)
        hnd.2 (fun g2 hg2 => hok g2 (List.mem_cons_of_mem g0 hg2))
        ?_ g hgtail
      intro g2 hg2
      rw [(configure_relay_preserves mcp grouped g0 g2.id ?_).1]
      · exact h0 g2 (List.mem_cons_of_mem g0 hg2)
      · intro he
        exact hnd.1 (List.mem_map.mpr ⟨g2, hg2, he.symm⟩)

/-- A binding produced by `dput` is the new one or one of the old ones. -/
theorem mem_dput {K V : Type} [DecidableEq K] (d : List (K × V)) (k : K)
    (v : V) : ∀ kv ∈ dput d k v, kv = (k, v) ∨ kv ∈ d := by
  induction d with
  | nil =>
    intro kv hkv
    simp [dput] at hkv
    exact Or.inl hkv
  | cons e es ih =>
    intro kv hkv
    by_cases he : e.1 = k
    · rw [dput, if_pos he] at hkv
      rcases List.mem_cons.mp hkv with rfl | h2
      · exact Or.inl rfl
      · exact Or.inr (List.mem_cons_of_mem e h2)
    · rw [dput, if_neg he] at hkv
      rcases List.mem_cons.mp hkv with rfl | h2
      · exact Or.inr (List.mem_cons_self kv es)
      · rcases ih kv h2 with h3 | h3
        · exact Or.inl h3
        · exact Or.inr (List.mem_cons_of_mem e h3)

/-- Expander registration only ever creates empty groups. -/
theorem initMcps_groups_empty :
    ∀ (cs : List McpConfig) (mcp : List (MKey × Nat)) (grouped : GMap),
      (∀ kv ∈ grouped, kv.2 = ([] : List (String × Relay))) →
      ∀ kv ∈ (initMcps mcp grouped cs).2.1,
        kv.2 = ([] : List (String × Relay)) := by
  intro cs
  induction cs with
  | nil => intro mcp grouped h kv hkv; exact h kv hkv
  | cons c cs ih =>
    intro mcp grouped h kv hkv
    refine ih _ _ ?_ kv hkv
    intro kv2 hkv2
    rcases mem_dput grouped (effKey c) [] kv2 hkv2 with h2 | h2
    · rw [h2]
    · exact h kv2 h2

/-- C6: on a successful construction from a configuration with pairwise
distinct output ids, every configured output has a recognized kind, exactly
one OutputDevice registered for its id across all groups, and that single
registration lies in exactly the group matching its configured kind — the
referenced expander's group for expander kind, the synthetic direct group
for direct kind. -/
theorem initManager_unique_groups (cfg : Config) (m : Manager) (tr : List Ev)
    (h : initManager cfg = Except.ok (m, tr))
    (hnd : (cfg.relayPins.map (fun g => g.id)).Nodup) :
    ∀ g ∈ cfg.relayPins,
      (g.kind = MCP ∨ g.kind = GPIO) ∧
      totalEntries m.grouped g.id = 1 ∧
      groupsContaining m.grouped g.id = [outKey g] := by
  simp only [initManager] at h
  cases hdl : discoveryLoop cfg.topicPrefix cfg.haDiscovery
      cfg.haDiscoveryPrefix
      (buildOutputs (initMcps [] [] cfg.mcp23017).1
        (initMcps [] [] cfg.mcp23017).2.1 [] cfg.relayPins).2.1 with
  | error e =>
    rw [hdl] at h
    exact Except.noConfusion h
  | ok tr1 =>
    rw [hdl] at h
    rw [Except.ok.injEq, Prod.mk.injEq] at h
    obtain ⟨hm, -⟩ := h
    have hsome := discoveryLoop_ok_isSome cfg.topicPrefix cfg.haDiscovery
      cfg.haDiscoveryPrefix _ tr1 hdl
    have hok := buildOutputs_ok (initMcps [] [] cfg.mcp23017).1 cfg.relayPins
      (initMcps [] [] cfg.mcp23017).2.1 [] hnd hsome
    have hzero : ∀ g ∈ cfg.relayPins,
        totalEntries (initMcps [] [] cfg.mcp23017).2.1 g.id = 0 := by
      intro g _
      refine totalEntries_of_all_empty _ ?_ g.id
      exact initMcps_groups_empty cfg.mcp23017 [] []
        (fun kv hkv => absurd hkv (List.not_mem_nil kv))
    intro g hg
    have hreg := buildOutputs_registers (initMcps [] [] cfg.mcp23017).1
      cfg.relayPins (initMcps [] [] cfg.mcp23017).2.1 [] hnd hok hzero g hg
    refine ⟨?_, ?_, ?_⟩
    · have := hok g hg
      unfold okRelay at this
      by_cases h1 : g.kind = MCP
      · exact Or.inl h1
      · rw [if_neg h1] at this
        exact Or.inr (by simpa using this)
    · rw [← hm]
      exact hreg.1
    · rw [← hm]
      exact hreg.2

/-- Witness for C6 on `okConfig`: `R1` sits exactly once in expander group
`m1`, `R2` exactly once in the direct group. -/
theorem initManager_unique_groups_witness :
    totalEntries okManager.grouped "R1" = 1 ∧
    groupsContaining okManager.grouped "R1" = [MKey.str "m1"] ∧
    totalEntries okManager.grouped "R2" = 1 ∧
    groupsContaining okManager.grouped "R2" = [MKey.str "gpio"] := by
  have h1 := initManager_unique_groups okConfig okManager okTrace rfl
    (by decide)
    { kind := "mcp", id := "R1", pin := "1", mcpId := some "m1",
      haType := "switch" } (by decide)
  have h2 := initManager_unique_groups okConfig okManager okTrace rfl
    (by decide)
    { kind := "gpio", id := "R2", pin := "P9_1", mcpId := none,
      haType := "switch" } (by decide)
  exact ⟨h1.2.1, h1.2.2, h2.2.1, h2.2.2⟩

end BoneIO
